import Mathlib

/-!
Verification of the TimerForWork time-tracking application.

This file gives a shallow embedding, in Lean 4, of the parts of the
repository that the specification talks about:

* `app/services/timer_service.py` — the stopwatch state machine
  (`TimerState` together with `TimerState.start`, `TimerState.pause`,
  `TimerState.resume`, `TimerState.stop`).  `datetime.now()` readings are
  modelled as rational-number inputs supplied with each operation, and
  Python's `int(round(...))` (banker's rounding) is modelled by `pyRound`.
* `app/models/record.py` — `TimeRec` and `from_datetimes_with_elapsed`.
* `app/ui/main_window.py` — `ManualRecordDialog._build_record`, modelled by
  `build_record`.
* `app/views/stats_view.py` — the per-day heatmap period split in
  `WeekGrid.update_data`, modelled by `periodContribution`,
  `dayPeriodSeconds` and `dayTotalSeconds`.  Python floats are modelled by
  rationals; `int(...)` truncation is modelled by `pyInt`.
* `app/storage/excel_store.py` — the in-memory indexes of `ExcelStore`,
  modelled by `StoreState`, `load_all` and `add_record`.
-/

/-- Python's `int(round(x))`: round to the nearest integer with ties going
to the even integer (banker's rounding), as Python's built-in `round` does. -/
def pyRound (x : ℚ) : ℤ :=
  let n := ⌊x⌋
  let f := x - (n : ℚ)
  if f < 1/2 then n
  else if (1 : ℚ)/2 < f then n + 1
  else if n % 2 = 0 then n else n + 1

/-- Python's `int(x)` on a float/rational: truncation toward zero. -/
def pyInt (x : ℚ) : ℤ := if 0 ≤ x then ⌊x⌋ else ⌈x⌉

/-- A persisted work record (`TimeRecord` in `app/models/record.py`).
Dates are modelled as integer day identifiers; times of day are kept as
their hour/minute/second components exactly as a Python `datetime.time`
stores them. -/
structure TimeRec where
  date : ℤ
  startHour : ℕ
  startMin : ℕ
  startSec : ℕ
  endHour : ℕ
  endMin : ℕ
  endSec : ℕ
  durationMin : ℤ
  durationSec : ℤ
  note : String
deriving DecidableEq

/-- The mutable fields of `TimerService` in `app/services/timer_service.py`:
`_first_start_dt`, `_current_start_dt` (both `Optional[datetime]`, modelled
as optional rational timestamps) and `_accumulated_sec : int`. -/
structure TimerState where
  first_start : Option ℚ
  current_start : Option ℚ
  accumulated_sec : ℤ
deriving DecidableEq

/-- The freshly constructed `TimerService` state (`__init__`). -/
def idle0 : TimerState := ⟨none, none, 0⟩

/-- `TimerService.is_running`: `self._current_start_dt is not None`. -/
def TimerState.is_running (s : TimerState) : Bool := s.current_start.isSome

/-- `TimerService.is_paused`: `(self._first_start_dt is not None) and
(self._current_start_dt is None) and (self._accumulated_sec >= 0)`. -/
def TimerState.is_paused (s : TimerState) : Bool :=
  s.first_start.isSome && s.current_start.isNone && decide (0 ≤ s.accumulated_sec)

/-- `TimerService.start` with the `datetime.now()` reading `now` supplied
as an input.  No-op while running or paused; otherwise records `now` as
both first and current start and resets the accumulator. -/
def TimerState.start (now : ℚ) (s : TimerState) : TimerState :=
  if s.is_running || s.is_paused then s
  else ⟨some now, some now, 0⟩

/-- `TimerService.pause`: no-op unless running; otherwise adds
`int(round(now - current_start))` to the accumulator and clears the
current start. -/
def TimerState.pause (now : ℚ) (s : TimerState) : TimerState :=
  if s.is_running then
    match s.current_start with
    | some cs => ⟨s.first_start, none, s.accumulated_sec + pyRound (now - cs)⟩
    | none => s
  else s

/-- `TimerService.resume`: no-op unless paused; otherwise sets the current
start to `now`. -/
def TimerState.resume (now : ℚ) (s : TimerState) : TimerState :=
  if s.is_paused then ⟨s.first_start, some now, s.accumulated_sec⟩ else s

/-- The total computed inside `TimerService.stop`: the accumulator, plus
`int(round(now - current_start))` when running. -/
def stopTotal (now : ℚ) (s : TimerState) : ℤ :=
  s.accumulated_sec +
    match s.current_start with
    | some cs => pyRound (now - cs)
    | none => 0

/-- `TimerService.stop`: returns `None` and leaves the state alone when both
start fields are `None`; otherwise returns
`(first_start or now, now, total)` and resets every field. -/
def TimerState.stop (now : ℚ) (s : TimerState) : Option (ℚ × ℚ × ℤ) × TimerState :=
  if s.first_start.isNone && s.current_start.isNone then (none, s)
  else (some (s.first_start.getD now, now, stopTotal now s), ⟨none, none, 0⟩)

/-- One of the four public stopwatch operations. -/
inductive Op
  | start
  | pause
  | resume
  | stop
deriving DecidableEq

/-- Apply one operation, given the `datetime.now()` reading it observes
(the value returned by `stop` is discarded here). -/
def applyOp (op : Op) (now : ℚ) (s : TimerState) : TimerState :=
  match op with
  | Op.start => TimerState.start now s
  | Op.pause => TimerState.pause now s
  | Op.resume => TimerState.resume now s
  | Op.stop => (TimerState.stop now s).2

/-- Run a sequence of operations, each paired with its clock reading. -/
def runOps (s : TimerState) (evs : List (Op × ℚ)) : TimerState :=
  evs.foldl (fun st e => applyOp e.1 e.2 st) s

/-- The events of the pause/resume cycles of a session:
`[(pause, p1), (resume, r1), (pause, p2), ...]`. -/
def cyclesOps : List (ℚ × ℚ) → List (Op × ℚ)
  | [] => []
  | (p, r) :: rest => (Op.pause, p) :: (Op.resume, r) :: cyclesOps rest

/-- An optional trailing pause before the final stop. -/
def tailOps : Option ℚ → List (Op × ℚ)
  | none => []
  | some tp => [(Op.pause, tp)]

/-- The start time of the last Running segment: the last resume time, or
the session start if there were no pause/resume cycles. -/
def lastStart (t : ℚ) : List (ℚ × ℚ) → ℚ
  | [] => t
  | (_, r) :: rest => lastStart r rest

/-- The sum of the rounded durations of the Running segments closed by the
pause of each cycle: segment `i` runs from the previous start/resume to the
pause of cycle `i`. -/
def cyclesAccum (t : ℚ) : List (ℚ × ℚ) → ℤ
  | [] => 0
  | (p, r) :: rest => pyRound (p - t) + cyclesAccum r rest

/-- The sum of the rounded durations of all Running segments of a session
that starts at `t`, goes through the given pause/resume cycles, and whose
last Running segment ends at `z` (the final pause or stop time). -/
def segTotal (t : ℚ) (cycles : List (ℚ × ℚ)) (z : ℚ) : ℤ :=
  cyclesAccum t cycles + pyRound (z - lastStart t cycles)

/-- The pause/resume cycle times are chronological: each pause happens no
earlier than the segment start before it, each resume no earlier than its
pause. -/
def chronoCycles (t : ℚ) : List (ℚ × ℚ) → Prop
  | [] => True
  | (p, r) :: rest => t ≤ p ∧ p ≤ r ∧ chronoCycles r rest

/-- Lower bounds for a list of timed events: every event time is `≥ t`, and
the times are non-decreasing. -/
def timesLB (t : ℚ) : List (Op × ℚ) → Prop
  | [] => True
  | e :: rest => t ≤ e.2 ∧ timesLB e.2 rest

/-- The clock readings of an event sequence are non-decreasing. -/
def timesSorted : List (Op × ℚ) → Prop
  | [] => True
  | e :: rest => timesLB e.2 rest

/-- The time of the last event, or `t` when there is none. -/
def endTime (t : ℚ) : List (Op × ℚ) → ℚ
  | [] => t
  | e :: rest => endTime e.2 rest

/-- The stopwatch invariant at time `t`: the accumulator is non-negative,
any current start lies in the past of `t`, and a current start implies a
first start. -/
def timerInv (s : TimerState) (t : ℚ) : Prop :=
  0 ≤ s.accumulated_sec
  ∧ (∀ cs, s.current_start = some cs → cs ≤ t)
  ∧ (s.current_start.isSome = true → s.first_start.isSome = true)

/-- The Idle state of the spec: both start fields are `None`. -/
def stateIdle (s : TimerState) : Bool :=
  s.first_start.isNone && s.current_start.isNone

/-- `WeekGrid.update_data`: `s = rec.start_time.hour + rec.start_time.minute/60.0`
(the seconds component of the time is ignored by the view). -/
def fracStartHour (r : TimeRec) : ℚ := (r.startHour : ℚ) + (r.startMin : ℚ) / 60

/-- `WeekGrid.update_data`: `e = rec.end_time.hour + rec.end_time.minute/60.0`,
then `if e < s: e = 24.0`. -/
def fracEndHour (r : TimeRec) : ℚ :=
  let e := (r.endHour : ℚ) + (r.endMin : ℚ) / 60
  if e < fracStartHour r then 24 else e

/-- The nested `intersect` helper of `WeekGrid.update_data`:
`max(0, min(r_end, p_end) - max(r_start, p_start))`. -/
def hourOverlap (rs re ps pe : ℚ) : ℚ := max 0 (min re pe - max rs ps)

/-- The seconds one record adds to `period_seconds_map` for the period
window `[ps, pe)` in `WeekGrid.update_data`: nothing when
`full_dur_h <= 0`, otherwise `int(duration * (h_overlap / full_dur_h))`
when the overlap is positive. -/
def periodContribution (r : TimeRec) (ps pe : ℚ) : ℤ :=
  let s := fracStartHour r
  let e := fracEndHour r
  let full := e - s
  if full ≤ 0 then 0
  else
    let h := hourOverlap s e ps pe
    if 0 < h then pyInt ((r.durationSec : ℚ) * (h / full)) else 0

/-- The final value of `period_seconds_map[p]` for one day's records. -/
def dayPeriodSeconds (recs : List TimeRec) (ps pe : ℚ) : ℤ :=
  (recs.map (fun r => periodContribution r ps pe)).sum

/-- `day_total = sum(r.duration_sec for r in day_records)` in
`WeekGrid.update_data`. -/
def dayTotalSeconds (recs : List TimeRec) : ℤ :=
  (recs.map (fun r => r.durationSec)).sum

/-- `ManualRecordDialog._build_record` in `app/ui/main_window.py`: computes
start and end of day in seconds from the hour/minute/second widgets,
returns `None` when the difference is `<= 0`, and otherwise builds a
`TimeRecord` with `duration_sec = diff` and
`duration_min = int(round(duration_sec / 60.0))`. -/
def build_record (d : ℤ) (sh sm ss eh em es : ℕ) (note : String) : Option TimeRec :=
  let start_sec : ℤ := (sh : ℤ) * 3600 + (sm : ℤ) * 60 + (ss : ℤ)
  let end_sec : ℤ := (eh : ℤ) * 3600 + (em : ℤ) * 60 + (es : ℤ)
  let diff := end_sec - start_sec
  if diff ≤ 0 then none
  else some
    { date := d
      startHour := sh, startMin := sm, startSec := ss
      endHour := eh, endMin := em, endSec := es
      durationMin := pyRound ((diff : ℚ) / 60)
      durationSec := diff
      note := note }

/-- `TimeRecord.from_datetimes_with_elapsed` in `app/models/record.py`:
`total_seconds = max(int(elapsed_seconds), 0)`,
`duration_min = int(round(total_seconds / 60.0))`. -/
def from_datetimes_with_elapsed (d : ℤ) (sh sm ss eh em es : ℕ)
    (elapsed_seconds : ℤ) (note : String) : TimeRec :=
  let total_seconds := max elapsed_seconds 0
  { date := d
    startHour := sh, startMin := sm, startSec := ss
    endHour := eh, endMin := em, endSec := es
    durationMin := pyRound ((total_seconds : ℚ) / 60)
    durationSec := total_seconds
    note := note }

/-- One spreadsheet row of `ExcelStore._load_all`, after the cell values
have been read: each field may be missing.  (The string-parsing fallbacks
of openpyxl cell values are outside the embedding; a malformed cell is a
missing field.) -/
structure Row where
  rowDate : Option ℤ
  rowStart : Option (ℕ × ℕ × ℕ)
  rowEnd : Option (ℕ × ℕ × ℕ)
  rowMin : Option ℤ
  rowSec : Option ℤ
  rowNote : String

/-- The record built from one row in `ExcelStore._load_all`: skipped when
date, start or end is missing; `mins` defaults to `0`, `secs` to
`mins * 60`. -/
def parseRow (row : Row) : Option TimeRec :=
  match row.rowDate, row.rowStart, row.rowEnd with
  | some d, some (sh, sm, ss), some (eh, em, es) =>
    let mins := row.rowMin.getD 0
    let secs := row.rowSec.getD (mins * 60)
    some
      { date := d
        startHour := sh, startMin := sm, startSec := ss
        endHour := eh, endMin := em, endSec := es
        durationMin := mins
        durationSec := secs
        note := row.rowNote }
  | _, _, _ => none

/-- The two in-memory indexes of `ExcelStore`: `date_to_records` and
`date_to_total_minutes`, modelled as total maps with the Python
`dict.get` defaults (`[]` and `0`) built in. -/
structure StoreState where
  date_to_records : ℤ → List TimeRec
  date_to_total_minutes : ℤ → ℤ

/-- The store state with both dictionaries empty. -/
def emptyStore : StoreState := ⟨fun _ => [], fun _ => 0⟩

/-- The shared index update of `_load_all` and `add_record`:
`date_to_records.setdefault(rec.date, []).append(rec)` and
`date_to_total_minutes[rec.date] = get(rec.date, 0) + rec.duration_min`. -/
def insertRec (s : StoreState) (rec : TimeRec) : StoreState :=
  ⟨fun d => if d = rec.date then s.date_to_records d ++ [rec] else s.date_to_records d,
   fun d => if d = rec.date then s.date_to_total_minutes d + rec.durationMin
            else s.date_to_total_minutes d⟩

/-- The body of the row loop of `ExcelStore._load_all`: parse the row,
skip it when malformed, index the record otherwise. -/
def loadStep (s : StoreState) (row : Row) : StoreState :=
  match parseRow row with
  | some rec => insertRec s rec
  | none => s

/-- `ExcelStore._load_all` over the data rows of the sheet. -/
def load_all (rows : List Row) : StoreState :=
  rows.foldl loadStep emptyStore

/-- The in-memory part of `ExcelStore.add_record` (the spreadsheet append
is external I/O). -/
def add_record (s : StoreState) (rec : TimeRec) : StoreState := insertRec s rec

/-- `ExcelStore.get_records_for_date`. -/
def get_records_for_date (s : StoreState) (d : ℤ) : List TimeRec :=
  s.date_to_records d

/-- `ExcelStore.get_total_minutes`. -/
def get_total_minutes (s : StoreState) (d : ℤ) : ℤ :=
  s.date_to_total_minutes d

/-- The cached per-date total agrees with the per-date record list. -/
def storeConsistent (s : StoreState) : Prop :=
  ∀ d, s.date_to_total_minutes d
    = ((s.date_to_records d).map (fun r => r.durationMin)).sum

/-- The hour and minute components of a record lie in the ranges a Python
`datetime.time` guarantees. -/
def validRec (r : TimeRec) : Prop :=
  r.startHour < 24 ∧ r.startMin < 60 ∧ r.endHour < 24 ∧ r.endMin < 60

instance (r : TimeRec) : Decidable (validRec r) := by
  unfold validRec
  infer_instance

/-- The 11:00:00–13:00:00 record of the boundary-split test (7200 s). -/
def recSplit : TimeRec :=
  ⟨0, 11, 0, 0, 13, 0, 0, 120, 7200, ""⟩

/-- The 09:00:00–10:30:00 record wholly inside Morning (5400 s). -/
def recMorning : TimeRec :=
  ⟨0, 9, 0, 0, 10, 30, 0, 90, 5400, ""⟩

/-- An 11:00:30–12:59:50 record (7160 s): the seconds components make the
proportional share of the Morning window a non-integer. -/
def recSecs : TimeRec :=
  ⟨0, 11, 0, 30, 12, 59, 50, 119, 7160, ""⟩

/-- An 11:59:30–18:01:20 record (21710 s) crossing all three period
windows: each window's share is truncated, losing 2 seconds in total. -/
def recTri : TimeRec :=
  ⟨0, 11, 59, 30, 18, 1, 20, 362, 21710, ""⟩

-- Basic facts about the rounding helpers.

theorem pyRound_nonneg {x : ℚ} (hx : 0 ≤ x) : 0 ≤ pyRound x := by
  have h0 : (0 : ℤ) ≤ ⌊x⌋ := Int.floor_nonneg.mpr hx
  simp only [pyRound]
  split_ifs <;> omega

theorem pyRound_intCast (k : ℤ) : pyRound (k : ℚ) = k := by
  have h1 : ⌊(k : ℚ)⌋ = k := Int.floor_intCast k
  simp only [pyRound, h1]
  norm_num

theorem pyInt_nonneg_eq_floor {x : ℚ} (hx : 0 ≤ x) : pyInt x = ⌊x⌋ := by
  unfold pyInt
  rw [if_pos hx]

theorem pyInt_nonneg {x : ℚ} (hx : 0 ≤ x) : 0 ≤ pyInt x := by
  rw [pyInt_nonneg_eq_floor hx]
  exact Int.floor_nonneg.mpr hx

-- Characterisations of the stopwatch predicates.

theorem is_paused_iff (s : TimerState) :
    s.is_paused = true ↔
      s.first_start.isSome = true ∧ s.current_start = none ∧ 0 ≤ s.accumulated_sec := by
  simp [TimerState.is_paused, Option.isNone_iff_eq_none, and_assoc]

theorem is_running_iff (s : TimerState) :
    s.is_running = true ↔ s.current_start.isSome = true := Iff.rfl

/-- C5: every operation called in a state where it is invalid is a silent
no-op: `start` while running or paused, `pause` while not running,
`resume` while not paused, and `stop` while idle, which returns `none`. -/
theorem C5_invalid_ops_are_noops (s : TimerState) (now : ℚ) :
    ((s.is_running = true ∨ s.is_paused = true) → TimerState.start now s = s)
    ∧ (s.is_running = false → TimerState.pause now s = s)
    ∧ (s.is_paused = false → TimerState.resume now s = s)
    ∧ (s.first_start = none → s.current_start = none →
        TimerState.stop now s = (none, s)) := by
  refine ⟨fun h => ?_, fun h => ?_, fun h => ?_, fun h1 h2 => ?_⟩
  · rcases h with h | h <;> simp [TimerState.start, h]
  · simp [TimerState.pause, h]
  · simp [TimerState.resume, h]
  · simp [TimerState.stop, h1, h2]

/-- Witness for C5 at concrete states: a running state ignores `start`,
and the idle state ignores `pause`, `resume` and returns nothing from
`stop`. -/
theorem C5_witness :
    TimerState.start 5 ⟨some 0, some 0, 0⟩ = ⟨some 0, some 0, 0⟩
    ∧ TimerState.pause 5 idle0 = idle0
    ∧ TimerState.resume 5 idle0 = idle0
    ∧ TimerState.stop 5 idle0 = (none, idle0) :=
  ⟨(C5_invalid_ops_are_noops ⟨some 0, some 0, 0⟩ 5).1 (Or.inl rfl),
   (C5_invalid_ops_are_noops idle0 5).2.1 rfl,
   (C5_invalid_ops_are_noops idle0 5).2.2.1 rfl,
   (C5_invalid_ops_are_noops idle0 5).2.2.2 rfl rfl⟩

/-- C7: the manual-entry dialog builds no record exactly when the end time
does not strictly follow the start time (in seconds of the day), and any
record it builds carries `duration_sec` equal to the difference. -/
theorem C7_manual_entry_rejects (d : ℤ) (sh sm ss eh em es : ℕ) (note : String) :
    (build_record d sh sm ss eh em es note = none ↔
      ((eh : ℤ) * 3600 + (em : ℤ) * 60 + (es : ℤ))
        - ((sh : ℤ) * 3600 + (sm : ℤ) * 60 + (ss : ℤ)) ≤ 0)
    ∧ ∀ r, build_record d sh sm ss eh em es note = some r →
        r.durationSec =
          ((eh : ℤ) * 3600 + (em : ℤ) * 60 + (es : ℤ))
            - ((sh : ℤ) * 3600 + (sm : ℤ) * 60 + (ss : ℤ)) := by
  simp only [build_record]
  split_ifs with h
  · exact ⟨by simp [h], fun r hr => by simp at hr⟩
  · refine ⟨by simp [h], fun r hr => ?_⟩
    simp only [Option.some.injEq] at hr
    rw [← hr]

/-- Witness for C7: a 10:00:00–10:02:05 entry is accepted with
`duration_sec = 125`, and a 23:59:59–00:00:00 entry is rejected. -/
theorem C7_witness :
    (build_record 0 10 0 0 10 2 5 "").map (fun r => r.durationSec) = some 125
    ∧ build_record 0 23 59 59 0 0 0 "" = none := by
  constructor
  · cases hb : build_record 0 10 0 0 10 2 5 "" with
    | none =>
      have := (C7_manual_entry_rejects 0 10 0 0 10 2 5 "").1.mp hb
      norm_num at this
    | some r =>
      have := (C7_manual_entry_rejects 0 10 0 0 10 2 5 "").2 r hb
      simp [this]
  · exact (C7_manual_entry_rejects 0 23 59 59 0 0 0 "").1.mpr (by norm_num)

/-- C8: `from_datetimes_with_elapsed` with `elapsed_seconds = 125` yields
`duration_min = 2`, and in general `duration_min` is the rounding of the
clamped elapsed seconds divided by 60. -/
theorem C8_elapsed_round_trip (d : ℤ) (sh sm ss eh em es : ℕ) (note : String) :
    (from_datetimes_with_elapsed d sh sm ss eh em es 125 note).durationMin = 2
    ∧ ∀ e : ℤ, (from_datetimes_with_elapsed d sh sm ss eh em es e note).durationMin
        = pyRound (((max e 0 : ℤ) : ℚ) / 60) := by
  constructor
  · show pyRound (((max (125 : ℤ) 0 : ℤ) : ℚ) / 60) = 2
    norm_num [pyRound, Int.floor_eq_iff]
  · intro e
    rfl

-- Store invariant machinery for C10.

theorem insertRec_consistent {s : StoreState} (h : storeConsistent s)
    (rec : TimeRec) : storeConsistent (insertRec s rec) := by
  intro d
  simp only [insertRec]
  by_cases hd : d = rec.date
  · simp [hd, h rec.date]
  · simp [hd, h d]

theorem foldl_add_record_consistent (adds : List TimeRec) :
    ∀ s : StoreState, storeConsistent s →
      storeConsistent (adds.foldl add_record s) := by
  induction adds with
  | nil => intro s h; exact h
  | cons a rest ih =>
    intro s h
    exact ih _ (insertRec_consistent h a)

theorem loadStep_consistent {s : StoreState} (h : storeConsistent s)
    (row : Row) : storeConsistent (loadStep s row) := by
  unfold loadStep
  cases hp : parseRow row with
  | none => exact h
  | some rec => exact insertRec_consistent h rec

theorem load_all_consistent (rows : List Row) : storeConsistent (load_all rows) := by
  unfold load_all
  have hgen : ∀ (rs : List Row) (s : StoreState), storeConsistent s →
      storeConsistent (rs.foldl loadStep s) := by
    intro rs
    induction rs with
    | nil => intro s h; exact h
    | cons row rest ih =>
      intro s h
      exact ih _ (loadStep_consistent h row)
  exact hgen rows emptyStore (fun d => rfl)

/-- C10: after loading any sheet and then adding any sequence of records,
the cached per-date minute total equals the sum of `duration_min` over the
records returned for that date. -/
theorem C10_cached_total_consistent (rows : List Row) (adds : List TimeRec) (d : ℤ) :
    get_total_minutes (adds.foldl add_record (load_all rows)) d
      = ((get_records_for_date (adds.foldl add_record (load_all rows)) d).map
          (fun r => r.durationMin)).sum :=
  foldl_add_record_consistent adds (load_all rows) (load_all_consistent rows) d

-- Elementary unfolding lemmas for event sequences.

theorem runOps_nil (s : TimerState) : runOps s [] = s := rfl

theorem runOps_cons (s : TimerState) (e : Op × ℚ) (evs : List (Op × ℚ)) :
    runOps s (e :: evs) = runOps (applyOp e.1 e.2 s) evs := rfl

theorem runOps_append (s : TimerState) (l1 l2 : List (Op × ℚ)) :
    runOps s (l1 ++ l2) = runOps (runOps s l1) l2 := by
  simp [runOps, List.foldl_append]

-- Running the pause/resume cycles of a session from a Running state.

theorem run_cycles (cycles : List (ℚ × ℚ)) :
    ∀ (f t : ℚ) (a : ℤ), 0 ≤ a → chronoCycles t cycles →
      runOps ⟨some f, some t, a⟩ (cyclesOps cycles)
        = ⟨some f, some (lastStart t cycles), a + cyclesAccum t cycles⟩ := by
  induction cycles with
  | nil =>
    intro f t a _ _
    simp [runOps, cyclesOps, lastStart, cyclesAccum]
  | cons pr rest ih =>
    obtain ⟨p, r⟩ := pr
    intro f t a ha hc
    obtain ⟨htp, hpr, hrest⟩ := hc
    have hpause : applyOp Op.pause p ⟨some f, some t, a⟩
        = ⟨some f, none, a + pyRound (p - t)⟩ := by
      simp [applyOp, TimerState.pause, TimerState.is_running]
    have hnn : 0 ≤ a + pyRound (p - t) := by
      have := pyRound_nonneg (x := p - t) (by linarith)
      omega
    have hres : applyOp Op.resume r ⟨some f, none, a + pyRound (p - t)⟩
        = ⟨some f, some r, a + pyRound (p - t)⟩ := by
      simp [applyOp, TimerState.resume, TimerState.is_paused, hnn]
    rw [show cyclesOps ((p, r) :: rest)
        = (Op.pause, p) :: (Op.resume, r) :: cyclesOps rest from rfl,
      runOps_cons, runOps_cons]
    rw [show applyOp (Op.pause, p).1 (Op.pause, p).2 ⟨some f, some t, a⟩
        = ⟨some f, none, a + pyRound (p - t)⟩ from hpause]
    rw [show applyOp (Op.resume, r).1 (Op.resume, r).2 ⟨some f, none, a + pyRound (p - t)⟩
        = ⟨some f, some r, a + pyRound (p - t)⟩ from hres]
    rw [ih f r (a + pyRound (p - t)) hnn hrest]
    rw [show lastStart t ((p, r) :: rest) = lastStart r rest from rfl,
      show cyclesAccum t ((p, r) :: rest) = pyRound (p - t) + cyclesAccum r rest from rfl,
      add_assoc]

/-- C1: for every session respecting the state machine — a `start`, any
number of chronological pause/resume cycles, an optional trailing `pause`,
then a `stop` — the total returned by `stop` is the sum of the rounded
durations of the Running segments (`segTotal`), independent of the number
of cycles. -/
theorem C1_stop_is_sum_of_segments (t0 tN : ℚ) (cycles : List (ℚ × ℚ))
    (tail : Option ℚ) (hc : chronoCycles t0 cycles) :
    (TimerState.stop tN
        (runOps idle0 ((Op.start, t0) :: (cyclesOps cycles ++ tailOps tail)))).1
      = some (t0, tN, segTotal t0 cycles (tail.getD tN)) := by
  have hstart : applyOp (Op.start, t0).1 (Op.start, t0).2 idle0
      = ⟨some t0, some t0, 0⟩ := by
    simp [applyOp, TimerState.start, TimerState.is_running, TimerState.is_paused, idle0]
  rw [runOps_cons, hstart, runOps_append, run_cycles cycles t0 t0 0 le_rfl hc]
  cases tail with
  | none =>
    simp only [tailOps, runOps_nil, Option.getD]
    simp [TimerState.stop, stopTotal, segTotal]
  | some tp =>
    have hpause : applyOp (Op.pause, tp).1 (Op.pause, tp).2
        ⟨some t0, some (lastStart t0 cycles), 0 + cyclesAccum t0 cycles⟩
        = ⟨some t0, none, 0 + cyclesAccum t0 cycles + pyRound (tp - lastStart t0 cycles)⟩ := by
      simp [applyOp, TimerState.pause, TimerState.is_running]
    simp only [tailOps]
    rw [runOps_cons, hpause, runOps_nil]
    simp [TimerState.stop, stopTotal, segTotal]

/-- Witness for C1: the spec scenario — start at 0, pause at 90, resume at
300, stop at 330 — returns a total of 120 seconds. -/
theorem C1_witness :
    (TimerState.stop 330 (runOps idle0
        ((Op.start, 0) :: (cyclesOps [((90 : ℚ), (300 : ℚ))] ++ tailOps none)))).1
      = some (0, 330, 120) := by
  have h := C1_stop_is_sum_of_segments 0 330 [((90 : ℚ), (300 : ℚ))] none
    (by norm_num [chronoCycles])
  rw [h]
  norm_num [segTotal, cyclesAccum, lastStart, pyRound, Int.floor_eq_iff]

-- The reachability invariant under chronological clock readings.

theorem timerInv_mono {s : TimerState} {t t' : ℚ} (h : timerInv s t) (htt : t ≤ t') :
    timerInv s t' :=
  ⟨h.1, fun cs hcs => le_trans (h.2.1 cs hcs) htt, h.2.2⟩

theorem applyOp_inv {s : TimerState} {t : ℚ} (op : Op) (h : timerInv s t) :
    timerInv (applyOp op t s) t := by
  obtain ⟨ha, hcs, hfs⟩ := h
  cases op with
  | start =>
    simp only [applyOp, TimerState.start]
    split_ifs with hcond
    · exact ⟨ha, hcs, hfs⟩
    · refine ⟨le_rfl, ?_, fun _ => rfl⟩
      intro cs hcseq
      cases Option.some.inj hcseq
      exact le_rfl
  | pause =>
    simp only [applyOp, TimerState.pause]
    split_ifs with hcond
    · cases hcur : s.current_start with
      | none => simp only [hcur]; exact ⟨ha, hcs, hfs⟩
      | some cs0 =>
        simp only [hcur]
        have hle : cs0 ≤ t := hcs cs0 hcur
        have hnn : 0 ≤ pyRound (t - cs0) := pyRound_nonneg (by linarith)
        refine ⟨show 0 ≤ s.accumulated_sec + pyRound (t - cs0) by omega, ?_, ?_⟩
        · intro cs hcseq
          exact absurd hcseq (by simp)
        · intro hsome
          exact absurd hsome (by simp)
    · exact ⟨ha, hcs, hfs⟩
  | resume =>
    simp only [applyOp, TimerState.resume]
    split_ifs with hcond
    · have hp := (is_paused_iff s).mp hcond
      refine ⟨ha, ?_, fun _ => hp.1⟩
      intro cs hcseq
      cases Option.some.inj hcseq
      exact le_rfl
    · exact ⟨ha, hcs, hfs⟩
  | stop =>
    simp only [applyOp, TimerState.stop]
    split_ifs with hcond
    · exact ⟨ha, hcs, hfs⟩
    · exact ⟨le_rfl, fun cs hcseq => absurd hcseq (by simp),
        fun hsome => absurd hsome (by simp)⟩

theorem runOps_inv : ∀ (evs : List (Op × ℚ)) (s : TimerState) (t : ℚ),
    timerInv s t → timesLB t evs → timerInv (runOps s evs) (endTime t evs) := by
  intro evs
  induction evs with
  | nil => intro s t h _; exact h
  | cons e rest ih =>
    intro s t h hlb
    obtain ⟨hte, hrest⟩ := hlb
    exact ih (applyOp e.1 e.2 s) e.2 (applyOp_inv e.1 (timerInv_mono h hte)) hrest

theorem runOps_inv_of_sorted (evs : List (Op × ℚ)) (h : timesSorted evs) :
    ∃ t, timerInv (runOps idle0 evs) t := by
  cases evs with
  | nil =>
    exact ⟨0, le_rfl, fun cs hcs => by simp [runOps, idle0] at hcs,
      fun hs => by simp [runOps, idle0] at hs⟩
  | cons e rest =>
    refine ⟨endTime e.2 (e :: rest), runOps_inv (e :: rest) idle0 e.2 ?_ ?_⟩
    · exact ⟨le_rfl, fun cs hcs => by simp [idle0] at hcs, fun hs => by simp [idle0] at hs⟩
    · exact ⟨le_rfl, h⟩

/-- C6 (amended): in every state reached from the fresh service by a
sequence of operations whose clock readings are non-decreasing, the
accumulator is non-negative. -/
theorem C6_amended_accumulated_nonneg (evs : List (Op × ℚ)) (h : timesSorted evs) :
    0 ≤ (runOps idle0 evs).accumulated_sec := by
  obtain ⟨t, ht⟩ := runOps_inv_of_sorted evs h
  exact ht.1

/-- Witness for C6 at the spec scenario trace. -/
theorem C6_witness :
    0 ≤ (runOps idle0
        [(Op.start, 0), (Op.pause, 90), (Op.resume, 300), (Op.stop, 330)]).accumulated_sec :=
  C6_amended_accumulated_nonneg _ (by norm_num [timesSorted, timesLB])

/-- Counterexample to C6 as stated: with an arbitrary (backwards) clock
reading, pausing at time −10 after starting at time 0 drives the
accumulator to −10 < 0 in a reachable state. -/
theorem C6_counterexample :
    (runOps idle0 [(Op.start, 0), (Op.pause, -10)]).accumulated_sec = -10
    ∧ ¬ (0 ≤ (runOps idle0 [(Op.start, 0), (Op.pause, -10)]).accumulated_sec) := by
  have hv : pyRound (-10 : ℚ) = -10 := by
    norm_num [pyRound, Int.floor_eq_iff]
  have h : runOps idle0 [(Op.start, 0), (Op.pause, -10)]
      = ⟨some 0, none, -10⟩ := by
    simp [runOps, applyOp, TimerState.start, TimerState.pause,
      TimerState.is_running, TimerState.is_paused, idle0, hv]
  rw [h]
  norm_num

/-- C9 (amended): under non-decreasing clock readings, every reachable
state has a first start whenever it has a current start, is never both
running and paused, and is exactly one of Idle, Running and Paused. -/
theorem C9_amended_trichotomy (evs : List (Op × ℚ)) (s : TimerState)
    (hs : s = runOps idle0 evs) (h : timesSorted evs) :
    (s.current_start.isSome = true → s.first_start.isSome = true)
    ∧ ¬ (s.is_running = true ∧ s.is_paused = true)
    ∧ ((stateIdle s = true ∧ s.is_running = false ∧ s.is_paused = false)
      ∨ (stateIdle s = false ∧ s.is_running = true ∧ s.is_paused = false)
      ∨ (stateIdle s = false ∧ s.is_running = false ∧ s.is_paused = true)) := by
  obtain ⟨t, ha, hcs, hfs⟩ := hs ▸ runOps_inv_of_sorted evs h
  refine ⟨hfs, ?_, ?_⟩
  · rintro ⟨hr, hp⟩
    obtain ⟨-, hnone, -⟩ := (is_paused_iff s).mp hp
    rw [TimerState.is_running, hnone] at hr
    simp at hr
  · cases hcur : s.current_start with
    | some cs =>
      refine Or.inr (Or.inl ⟨?_, ?_, ?_⟩)
      · have := hfs (by simp [hcur])
        cases hfst : s.first_start with
        | none => rw [hfst] at this; simp at this
        | some f => simp [stateIdle, hfst, hcur]
      · simp [TimerState.is_running, hcur]
      · simp [TimerState.is_paused, hcur]
    | none =>
      cases hfst : s.first_start with
      | none =>
        refine Or.inl ⟨by simp [stateIdle, hfst, hcur], by simp [TimerState.is_running, hcur], ?_⟩
        simp [TimerState.is_paused, hfst]
      | some f =>
        refine Or.inr (Or.inr ⟨by simp [stateIdle, hfst], by simp [TimerState.is_running, hcur], ?_⟩)
        simp [TimerState.is_paused, hfst, hcur, ha]

/-- Witness for C9 on a concrete chronological trace ending Paused. -/
theorem C9_witness :
    ((runOps idle0 [(Op.start, 0), (Op.pause, 90)]).current_start.isSome = true
      → (runOps idle0 [(Op.start, 0), (Op.pause, 90)]).first_start.isSome = true)
    ∧ ¬ ((runOps idle0 [(Op.start, 0), (Op.pause, 90)]).is_running = true
        ∧ (runOps idle0 [(Op.start, 0), (Op.pause, 90)]).is_paused = true)
    ∧ ((stateIdle (runOps idle0 [(Op.start, 0), (Op.pause, 90)]) = true
          ∧ (runOps idle0 [(Op.start, 0), (Op.pause, 90)]).is_running = false
          ∧ (runOps idle0 [(Op.start, 0), (Op.pause, 90)]).is_paused = false)
      ∨ (stateIdle (runOps idle0 [(Op.start, 0), (Op.pause, 90)]) = false
          ∧ (runOps idle0 [(Op.start, 0), (Op.pause, 90)]).is_running = true
          ∧ (runOps idle0 [(Op.start, 0), (Op.pause, 90)]).is_paused = false)
      ∨ (stateIdle (runOps idle0 [(Op.start, 0), (Op.pause, 90)]) = false
          ∧ (runOps idle0 [(Op.start, 0), (Op.pause, 90)]).is_running = false
          ∧ (runOps idle0 [(Op.start, 0), (Op.pause, 90)]).is_paused = true)) :=
  C9_amended_trichotomy [(Op.start, 0), (Op.pause, 90)] _ rfl
    (by norm_num [timesSorted, timesLB])

/-- Counterexample to C9 as stated: after starting at 0 and pausing at the
arbitrary clock reading −10, the reachable state is neither Idle nor
Running nor Paused. -/
theorem C9_counterexample :
    stateIdle (runOps idle0 [(Op.start, 0), (Op.pause, -10)]) = false
    ∧ (runOps idle0 [(Op.start, 0), (Op.pause, -10)]).is_running = false
    ∧ (runOps idle0 [(Op.start, 0), (Op.pause, -10)]).is_paused = false := by
  have hv : pyRound (-10 : ℚ) = -10 := by
    norm_num [pyRound, Int.floor_eq_iff]
  have h : runOps idle0 [(Op.start, 0), (Op.pause, -10)]
      = ⟨some 0, none, -10⟩ := by
    simp [runOps, applyOp, TimerState.start, TimerState.pause,
      TimerState.is_running, TimerState.is_paused, idle0, hv]
  rw [h]
  refine ⟨by simp [stateIdle], by simp [TimerState.is_running], ?_⟩
  simp [TimerState.is_paused]

/-- C2 (amended): called on a Running or Paused state (which carries a
first start), `stop` returns the first start, the supplied `now`, and
`accumulated + (round(now − started_at) if Running else 0)` — with no
clamping — and resets the service to Idle; the total is non-negative
whenever the accumulator is non-negative and `now` is not before the
current start. -/
theorem C2_amended_stop_contract (s : TimerState) (f now : ℚ)
    (hf : s.first_start = some f)
    (_hrp : s.is_running = true ∨ s.is_paused = true) :
    TimerState.stop now s = (some (f, now, stopTotal now s), idle0)
    ∧ stopTotal now s = s.accumulated_sec
        + (if s.is_running = true then pyRound (now - s.current_start.getD now) else 0)
    ∧ (0 ≤ s.accumulated_sec → (∀ cs, s.current_start = some cs → cs ≤ now) →
        0 ≤ stopTotal now s) := by
  refine ⟨?_, ?_, ?_⟩
  · simp [TimerState.stop, hf, idle0]
  · cases hcur : s.current_start with
    | none => simp [stopTotal, hcur, TimerState.is_running]
    | some cs => simp [stopTotal, hcur, TimerState.is_running]
  · intro ha hcs
    cases hcur : s.current_start with
    | none => simp [stopTotal, hcur]; omega
    | some cs =>
      have hle : cs ≤ now := hcs cs hcur
      have hnn : 0 ≤ pyRound (now - cs) := pyRound_nonneg (by linarith)
      simp [stopTotal, hcur]
      omega

/-- Witness for C2 on a concrete Paused state: stopping at time 100 a
service first started at 0 with 90 accumulated seconds returns
`(0, 100, 90)` and resets to Idle. -/
theorem C2_witness :
    TimerState.stop 100 ⟨some 0, none, 90⟩ = (some (0, 100, 90), idle0)
    ∧ 0 ≤ stopTotal 100 ⟨some 0, none, 90⟩ := by
  have h := C2_amended_stop_contract ⟨some 0, none, 90⟩ 0 100 rfl
    (Or.inr (by norm_num [TimerState.is_paused]))
  refine ⟨?_, h.2.2 (by norm_num) (fun cs hcs => by simp at hcs)⟩
  rw [h.1]
  norm_num [stopTotal]

/-- Counterexample to C2 as stated: `stop` does not clamp — stopping the
service started at time 0 with the backwards clock reading −100 returns
the negative total −100. -/
theorem C2_counterexample :
    (runOps idle0 [(Op.start, 0)]).is_running = true
    ∧ (TimerState.stop (-100) (runOps idle0 [(Op.start, 0)])).1
        = some (0, -100, -100)
    ∧ ((-100 : ℤ) < 0) := by
  have h : runOps idle0 [(Op.start, 0)] = ⟨some 0, some 0, 0⟩ := by
    simp [runOps, applyOp, TimerState.start, TimerState.is_running,
      TimerState.is_paused, idle0]
  have hv : pyRound (-100 : ℚ) = -100 := by
    norm_num [pyRound, Int.floor_eq_iff]
  rw [h]
  refine ⟨by simp [TimerState.is_running], ?_, by norm_num⟩
  simp [TimerState.stop, stopTotal, hv]

-- Window-overlap algebra for the heatmap period split.

theorem hourOverlap_telescope (s e p q r : ℚ) (hse : s ≤ e) (hpq : p ≤ q) (hqr : q ≤ r) :
    hourOverlap s e p q + hourOverlap s e q r = hourOverlap s e p r := by
  simp only [hourOverlap, min_def, max_def]
  split_ifs <;> linarith

theorem hourOverlap_partition (s e : ℚ) (h0 : 0 ≤ s) (hse : s ≤ e) (h24 : e ≤ 24) :
    hourOverlap s e 0 12 + hourOverlap s e 12 18 + hourOverlap s e 18 24 = e - s := by
  have h1 := hourOverlap_telescope s e 0 12 18 hse (by norm_num) (by norm_num)
  have h2 := hourOverlap_telescope s e 0 18 24 hse (by norm_num) (by norm_num)
  have h3 : hourOverlap s e 0 24 = e - s := by
    simp only [hourOverlap]
    rw [min_eq_left h24, max_eq_left h0, max_eq_right (by linarith : (0 : ℚ) ≤ e - s)]
  linarith

theorem pyInt_le {x : ℚ} (hx : 0 ≤ x) : (pyInt x : ℚ) ≤ x := by
  rw [pyInt_nonneg_eq_floor hx]
  exact Int.floor_le x

theorem lt_pyInt_add_one {x : ℚ} (hx : 0 ≤ x) : x - 1 < (pyInt x : ℚ) := by
  rw [pyInt_nonneg_eq_floor hx]
  exact Int.sub_one_lt_floor x

/-- C3 (amended): the seconds a record contributes to a period window are
the truncation `int(...)` of `duration_seconds * (overlap / (e − s))` when
`e > s`, and `0` when `e ≤ s`; the two boundary scenarios of the spec are
exact because their shares are whole numbers. -/
theorem C3_amended_period_share :
    (∀ (r : TimeRec) (ps pe : ℚ),
      periodContribution r ps pe =
        if fracStartHour r < fracEndHour r then
          pyInt ((r.durationSec : ℚ) *
            (hourOverlap (fracStartHour r) (fracEndHour r) ps pe
              / (fracEndHour r - fracStartHour r)))
        else 0)
    ∧ (periodContribution recSplit 0 12 = 3600
        ∧ periodContribution recSplit 12 18 = 3600
        ∧ periodContribution recSplit 18 24 = 0)
    ∧ (periodContribution recMorning 0 12 = 5400
        ∧ periodContribution recMorning 12 18 = 0
        ∧ periodContribution recMorning 18 24 = 0) := by
  refine ⟨?_, ⟨?_, ?_, ?_⟩, ⟨?_, ?_, ?_⟩⟩
  · intro r ps pe
    have hh0 : (0 : ℚ) ≤ hourOverlap (fracStartHour r) (fracEndHour r) ps pe :=
      le_max_left 0 _
    simp only [periodContribution]
    by_cases h1 : fracEndHour r - fracStartHour r ≤ 0
    · rw [if_pos h1, if_neg (by linarith : ¬ fracStartHour r < fracEndHour r)]
    · rw [if_neg h1, if_pos (by linarith : fracStartHour r < fracEndHour r)]
      by_cases h2 : (0 : ℚ) < hourOverlap (fracStartHour r) (fracEndHour r) ps pe
      · rw [if_pos h2]
      · rw [if_neg h2,
          le_antisymm (not_lt.mp h2) hh0]
        simp [pyInt]
  all_goals
    norm_num [periodContribution, fracStartHour, fracEndHour, hourOverlap,
      recSplit, recMorning, pyInt, min_def, max_def, Int.floor_eq_iff]

/-- Counterexample to C3 as stated: for the 11:00:30–12:59:50 record of
7160 seconds (`e > s`), the Morning share is the truncated 3610 seconds,
not the exact value `7160 * (1 / (119/60)) = 429600/119`. -/
theorem C3_counterexample :
    fracStartHour recSecs < fracEndHour recSecs
    ∧ ((periodContribution recSecs 0 12 : ℚ)
        ≠ (recSecs.durationSec : ℚ) *
            (hourOverlap (fracStartHour recSecs) (fracEndHour recSecs) 0 12
              / (fracEndHour recSecs - fracStartHour recSecs))) := by
  constructor
  · norm_num [fracStartHour, fracEndHour, recSecs]
  · have h : periodContribution recSecs 0 12 = 3610 := by
      norm_num [periodContribution, fracStartHour, fracEndHour, hourOverlap, recSecs,
        pyInt, min_def, max_def, Int.floor_eq_iff]
    rw [h]
    norm_num [fracStartHour, fracEndHour, hourOverlap, recSecs, min_def, max_def]

-- Per-record truncation bounds for the period split.

theorem periodContribution_share_bounds (r : TimeRec) (ps pe : ℚ)
    (hd : 0 ≤ r.durationSec) (hlt : fracStartHour r < fracEndHour r) :
    ((r.durationSec : ℚ) * (hourOverlap (fracStartHour r) (fracEndHour r) ps pe
        / (fracEndHour r - fracStartHour r)) - 1 < (periodContribution r ps pe : ℚ))
    ∧ ((periodContribution r ps pe : ℚ)
        ≤ (r.durationSec : ℚ) * (hourOverlap (fracStartHour r) (fracEndHour r) ps pe
            / (fracEndHour r - fracStartHour r))) := by
  have hfull : (0 : ℚ) < fracEndHour r - fracStartHour r := by linarith
  have hh0 : (0 : ℚ) ≤ hourOverlap (fracStartHour r) (fracEndHour r) ps pe :=
    le_max_left 0 _
  have hx : (0 : ℚ) ≤ (r.durationSec : ℚ) *
      (hourOverlap (fracStartHour r) (fracEndHour r) ps pe
        / (fracEndHour r - fracStartHour r)) :=
    mul_nonneg (by exact_mod_cast hd) (div_nonneg hh0 hfull.le)
  simp only [periodContribution]
  rw [if_neg (by linarith : ¬ fracEndHour r - fracStartHour r ≤ 0)]
  by_cases h2 : (0 : ℚ) < hourOverlap (fracStartHour r) (fracEndHour r) ps pe
  · rw [if_pos h2]
    exact ⟨lt_pyInt_add_one hx, pyInt_le hx⟩
  · rw [if_neg h2, le_antisymm (not_lt.mp h2) hh0]
    norm_num

theorem fracStartHour_nonneg (r : TimeRec) : 0 ≤ fracStartHour r := by
  unfold fracStartHour
  positivity

theorem fracEndHour_le_24 (r : TimeRec) (heh : r.endHour < 24) (hem : r.endMin < 60) :
    fracEndHour r ≤ 24 := by
  have h1 : (r.endHour : ℚ) ≤ 23 := by exact_mod_cast Nat.lt_succ_iff.mp heh
  have h2 : (r.endMin : ℚ) ≤ 59 := by exact_mod_cast Nat.lt_succ_iff.mp hem
  simp only [fracEndHour]
  split_ifs
  · exact le_rfl
  · linarith

theorem periodContribution_day_bounds (r : TimeRec)
    (hv : validRec r) (hd : 0 ≤ r.durationSec)
    (hlt : fracStartHour r < fracEndHour r) :
    r.durationSec - 2 ≤
      periodContribution r 0 12 + periodContribution r 12 18 + periodContribution r 18 24
    ∧ periodContribution r 0 12 + periodContribution r 12 18 + periodContribution r 18 24
        ≤ r.durationSec := by
  obtain ⟨hsh, hsm, heh, hem⟩ := hv
  have hs0 : (0 : ℚ) ≤ fracStartHour r := fracStartHour_nonneg r
  have he24 : fracEndHour r ≤ 24 := fracEndHour_le_24 r heh hem
  have hfull : (0 : ℚ) < fracEndHour r - fracStartHour r := by linarith
  have hpart := hourOverlap_partition (fracStartHour r) (fracEndHour r) hs0 hlt.le he24
  have hb1 := periodContribution_share_bounds r 0 12 hd hlt
  have hb2 := periodContribution_share_bounds r 12 18 hd hlt
  have hb3 := periodContribution_share_bounds r 18 24 hd hlt
  have hsum : (r.durationSec : ℚ) *
        (hourOverlap (fracStartHour r) (fracEndHour r) 0 12
          / (fracEndHour r - fracStartHour r))
      + (r.durationSec : ℚ) *
        (hourOverlap (fracStartHour r) (fracEndHour r) 12 18
          / (fracEndHour r - fracStartHour r))
      + (r.durationSec : ℚ) *
        (hourOverlap (fracStartHour r) (fracEndHour r) 18 24
          / (fracEndHour r - fracStartHour r))
      = (r.durationSec : ℚ) := by
    have hne : fracEndHour r - fracStartHour r ≠ 0 := ne_of_gt hfull
    have hdiv : (hourOverlap (fracStartHour r) (fracEndHour r) 0 12
        + hourOverlap (fracStartHour r) (fracEndHour r) 12 18
        + hourOverlap (fracStartHour r) (fracEndHour r) 18 24)
          / (fracEndHour r - fracStartHour r) = 1 := by
      rw [hpart]
      exact div_self hne
    have hexp : (r.durationSec : ℚ) *
          (hourOverlap (fracStartHour r) (fracEndHour r) 0 12
            / (fracEndHour r - fracStartHour r))
        + (r.durationSec : ℚ) *
          (hourOverlap (fracStartHour r) (fracEndHour r) 12 18
            / (fracEndHour r - fracStartHour r))
        + (r.durationSec : ℚ) *
          (hourOverlap (fracStartHour r) (fracEndHour r) 18 24
            / (fracEndHour r - fracStartHour r))
        = (r.durationSec : ℚ) *
          ((hourOverlap (fracStartHour r) (fracEndHour r) 0 12
            + hourOverlap (fracStartHour r) (fracEndHour r) 12 18
            + hourOverlap (fracStartHour r) (fracEndHour r) 18 24)
              / (fracEndHour r - fracStartHour r)) := by
      ring
    rw [hexp, hdiv, mul_one]
  have hup : ((periodContribution r 0 12 + periodContribution r 12 18
      + periodContribution r 18 24 : ℤ) : ℚ) ≤ (r.durationSec : ℚ) := by
    push_cast
    linarith [hb1.2, hb2.2, hb3.2]
  have hlo : ((r.durationSec : ℚ)) - 3 < ((periodContribution r 0 12
      + periodContribution r 12 18 + periodContribution r 18 24 : ℤ) : ℚ) := by
    push_cast
    linarith [hb1.1, hb2.1, hb3.1]
  constructor
  · have : (r.durationSec : ℤ) - 3 < periodContribution r 0 12
        + periodContribution r 12 18 + periodContribution r 18 24 := by
      exact_mod_cast hlo
    omega
  · exact_mod_cast hup

theorem day_sum_bounds_aux : ∀ (recs : List TimeRec),
    (∀ r ∈ recs, validRec r ∧ 0 ≤ r.durationSec ∧ fracStartHour r < fracEndHour r) →
    dayTotalSeconds recs - 2 * (recs.length : ℤ)
        ≤ dayPeriodSeconds recs 0 12 + dayPeriodSeconds recs 12 18
          + dayPeriodSeconds recs 18 24
    ∧ dayPeriodSeconds recs 0 12 + dayPeriodSeconds recs 12 18
          + dayPeriodSeconds recs 18 24
        ≤ dayTotalSeconds recs := by
  intro recs
  induction recs with
  | nil =>
    intro _
    simp [dayPeriodSeconds, dayTotalSeconds]
  | cons r rest ih =>
    intro hv
    have hr := hv r (by simp)
    have hrest := ih (fun x hx => hv x (by simp [hx]))
    have hb := periodContribution_day_bounds r hr.1 hr.2.1 hr.2.2
    simp only [dayPeriodSeconds, dayTotalSeconds, List.map_cons, List.sum_cons,
      List.length_cons] at hrest hb ⊢
    push_cast
    constructor <;> linarith [hb.1, hb.2, hrest.1, hrest.2]

/-- C4 (amended): for a day's records that each have `e > s` (degenerate
records with `e ≤ s` are dropped from the period split entirely), the sum
of the three period totals never exceeds the day total of
`duration_sec` and falls short of it by at most 2 seconds per interval
(one second may be truncated away at each window boundary a record
crosses). -/
theorem C4_amended_day_sum (recs : List TimeRec)
    (hv : ∀ r ∈ recs, validRec r ∧ 0 ≤ r.durationSec ∧ fracStartHour r < fracEndHour r) :
    dayTotalSeconds recs - 2 * (recs.length : ℤ)
        ≤ dayPeriodSeconds recs 0 12 + dayPeriodSeconds recs 12 18
          + dayPeriodSeconds recs 18 24
    ∧ dayPeriodSeconds recs 0 12 + dayPeriodSeconds recs 12 18
          + dayPeriodSeconds recs 18 24
        ≤ dayTotalSeconds recs :=
  day_sum_bounds_aux recs hv

/-- Witness for C4 on the single boundary-split record: the period totals
7200 = 3600 + 3600 + 0 lie within the bounds around the 7200-second day
total. -/
theorem C4_witness :
    dayTotalSeconds [recSplit] - 2 * (([recSplit] : List TimeRec).length : ℤ)
        ≤ dayPeriodSeconds [recSplit] 0 12 + dayPeriodSeconds [recSplit] 12 18
          + dayPeriodSeconds [recSplit] 18 24
    ∧ dayPeriodSeconds [recSplit] 0 12 + dayPeriodSeconds [recSplit] 12 18
          + dayPeriodSeconds [recSplit] 18 24
        ≤ dayTotalSeconds [recSplit] :=
  C4_amended_day_sum [recSplit] (by
    intro r hr
    simp only [List.mem_singleton] at hr
    subst hr
    refine ⟨⟨?_, ?_, ?_, ?_⟩, ?_, ?_⟩ <;>
      norm_num [validRec, fracStartHour, fracEndHour, recSplit])

/-- Counterexample to C4 as stated: the single 11:59:30–18:01:20 record
(21710 s) loses one truncated second in each of Morning and Evening, so
the period totals sum to 21708 — off by 2, beyond the claimed tolerance of
1 second per interval. -/
theorem C4_counterexample :
    dayPeriodSeconds [recTri] 0 12 + dayPeriodSeconds [recTri] 12 18
        + dayPeriodSeconds [recTri] 18 24 = 21708
    ∧ dayTotalSeconds [recTri] = 21710
    ∧ ¬ ((dayTotalSeconds [recTri]
          - (dayPeriodSeconds [recTri] 0 12 + dayPeriodSeconds [recTri] 12 18
            + dayPeriodSeconds [recTri] 18 24)).natAbs
          ≤ ([recTri] : List TimeRec).length) := by
  have h1 : dayPeriodSeconds [recTri] 0 12 = 59 := by
    norm_num [dayPeriodSeconds, periodContribution, fracStartHour, fracEndHour,
      hourOverlap, recTri, pyInt, min_def, max_def, Int.floor_eq_iff]
  have h2 : dayPeriodSeconds [recTri] 12 18 = 21590 := by
    norm_num [dayPeriodSeconds, periodContribution, fracStartHour, fracEndHour,
      hourOverlap, recTri, pyInt, min_def, max_def, Int.floor_eq_iff]
  have h3 : dayPeriodSeconds [recTri] 18 24 = 59 := by
    norm_num [dayPeriodSeconds, periodContribution, fracStartHour, fracEndHour,
      hourOverlap, recTri, pyInt, min_def, max_def, Int.floor_eq_iff]
  have h4 : dayTotalSeconds [recTri] = 21710 := by
    norm_num [dayTotalSeconds, recTri]
  rw [h1, h2, h3, h4]
  norm_num
